import Mathlib

/-!
Shallow embedding of the UrbanTaskManager backend (src/app.py): the data
model, the haversine distance, the per-resource load accounting, the greedy
scheduling pass and the add-task handler, together with proofs of the
specified properties.

Modelling conventions:
* SQLAlchemy rows become Lean structures; the database becomes an explicit
  `Store` value threaded through the operations.  `Query.all()` returns
  rows in their stable identity order, modelled by the list order of the
  corresponding `Store` field.
* Python float arithmetic is modelled as exact arithmetic in a linear
  ordered field: the scheduler is generic over the field `α` and over the
  distance function it uses, and the source scheduler is the instantiation
  at `ℝ` with the haversine distance (`greedy_scheduler_real`).  The
  decimal literals 0.6, 0.3, 0.1 of the score formula denote the exact
  values 6/10, 3/10, 1/10.
* Python `int(x)` is truncation toward zero (`py_trunc`).
* Python's `sorted` is a stable sort by key; it is modelled by a stable
  insertion sort (`sortTasks`) with the source's key `-urgency`.
-/

set_option linter.unusedSectionVars false

namespace UrbanTaskManager

/-- Resource row (src/app.py lines 21-27). -/
structure Resource (α : Type) where
  id : Nat
  name : String
  type : String
  lat : α
  lon : α
  capacity : Int
deriving DecidableEq

/-- Task row (src/app.py lines 29-40); `created_at` is an opaque timestamp
string whose value the scheduler never reads. -/
structure Task (α : Type) where
  id : Nat
  title : String
  description : String
  lat : α
  lon : α
  urgency : Int
  status : String
  created_at : String
deriving DecidableEq

/-- Assignment row (src/app.py lines 42-50). -/
structure Assignment where
  id : Nat
  task_id : Nat
  resource_id : Nat
  eta_minutes : Int
deriving DecidableEq

/-- One entry of the list a scheduling pass returns (src/app.py line 116). -/
structure SchedOut where
  task : String
  resource : String
  eta : Int
deriving DecidableEq

/-- The persistent store: the three tables plus the autoincrement primary
key counters. -/
structure Store (α : Type) where
  tasks : List (Task α)
  resources : List (Resource α)
  assignments : List Assignment
  next_task_id : Nat
  next_assignment_id : Nat
deriving DecidableEq

variable {α : Type} [LinearOrderedField α] [FloorRing α]

/-- src/app.py lines 83-84: `current_load` counts the Assignment rows whose
resource reference equals the given id. -/
def current_load (st : Store α) (res_id : Nat) : Nat :=
  (st.assignments.filter (fun a => a.resource_id == res_id)).length

/-- src/app.py line 102: the greedy score of resource `r` for task `t` at
the load it has in `st`; `6/10, 3/10, 1/10` are the exact values of the
source's literals `0.6, 0.3, 0.1`. -/
def score_of (dist : Task α → Resource α → α) (st : Store α) (t : Task α)
    (r : Resource α) : α :=
  6/10 * ((t.urgency : α) / 10) - 3/10 * (dist t r / 20)
    - 1/10 * ((current_load st r.id : α) / (r.capacity : α))

/-- src/app.py line 98: a resource is feasible when its current load is
strictly below its capacity (otherwise the loop `continue`s past it). -/
def feasible (st : Store α) (r : Resource α) : Prop :=
  (current_load st r.id : Int) < r.capacity

instance (st : Store α) (r : Resource α) : Decidable (feasible st r) :=
  decidable_of_iff ((current_load st r.id : Int) < r.capacity) Iff.rfl

/-- src/app.py lines 96-107: one step of the inner resource loop.  The
accumulator is `(best, best_score, best_dist)`, initially
`(none, -999, none)`. -/
def sel_step (dist : Task α → Resource α → α) (st : Store α) (t : Task α)
    (acc : Option (Resource α) × α × Option α) (r : Resource α) :
    Option (Resource α) × α × Option α :=
  if (current_load st r.id : Int) ≥ r.capacity then acc
  else if score_of dist st t r > acc.2.1 then
    (some r, score_of dist st t r, some (dist t r))
  else acc

/-- src/app.py lines 92-107: the inner loop over the full resource list. -/
def select_best (dist : Task α → Resource α → α) (st : Store α) (t : Task α)
    (res : List (Resource α)) : Option (Resource α) × α × Option α :=
  res.foldl (sel_step dist st t) (none, -999, none)

/-- Python `int(_)` on a real value: truncation toward zero. -/
def py_trunc (x : α) : Int := if 0 ≤ x then ⌊x⌋ else ⌈x⌉

/-- src/app.py lines 110-111: the Assignment row committed for task `t` and
chosen resource `b` in store `st`. -/
def mk_assignment (dist : Task α → Resource α → α) (st : Store α) (t : Task α)
    (b : Resource α) : Assignment :=
  { id := st.next_assignment_id
    task_id := t.id
    resource_id := b.id
    eta_minutes := py_trunc (dist t b / 30 * 60) + 5 }

/-- src/app.py lines 92-116: processing of one task: run the resource loop
and, when a best resource was found, commit the new assignment together
with the status flip of the task row, and append the output entry.  When
`best` is set the tracked best distance is necessarily set as well (this is
proved below), so the wildcard branch covers only the no-resource case. -/
def sched_step (dist : Task α → Resource α → α) (res : List (Resource α))
    (acc : Store α × List SchedOut) (t : Task α) : Store α × List SchedOut :=
  match select_best dist acc.1 t res with
  | (some best, _, some bd) =>
      let eta := py_trunc (bd / 30 * 60) + 5
      let a : Assignment :=
        { id := acc.1.next_assignment_id
          task_id := t.id
          resource_id := best.id
          eta_minutes := eta }
      ({ acc.1 with
          tasks := acc.1.tasks.map
            (fun u => if u.id = t.id then { u with status := "assigned" } else u),
          assignments := acc.1.assignments ++ [a],
          next_assignment_id := acc.1.next_assignment_id + 1 },
        acc.2 ++ [{ task := t.title, resource := best.name, eta := eta }])
  | _ => acc

/-- The comparison `sorted(tasks, key=lambda x: -x.urgency)` sorts by
(ascending key `-urgency`, i.e. descending urgency). -/
def taskLe (a b : Task α) : Bool := decide (-a.urgency ≤ -b.urgency)

/-- Stable insertion used to model Python's stable sort. -/
def insertTask (x : Task α) : List (Task α) → List (Task α)
  | [] => [x]
  | y :: ys => if taskLe x y then x :: y :: ys else y :: insertTask x ys

/-- src/app.py line 91: Python's `sorted` is a stable sort by key; modelled
as a stable insertion sort. -/
def sortTasks : List (Task α) → List (Task α)
  | [] => []
  | x :: xs => insertTask x (sortTasks xs)

/-- src/app.py line 87: the pending tasks in store order. -/
def pending_tasks (st : Store α) : List (Task α) :=
  st.tasks.filter (fun t => t.status == "pending")

/-- src/app.py line 91: the order in which a pass processes tasks. -/
def pass_order (st : Store α) : List (Task α) := sortTasks (pending_tasks st)

/-- src/app.py lines 86-118: one full scheduling pass: fold the one-task
step, in processing order, over the store, threading the commits so each
later task sees the loads left by the earlier ones. -/
def greedy_scheduler (dist : Task α → Resource α → α) (st : Store α) :
    Store α × List SchedOut :=
  (pass_order st).foldl (sched_step dist st.resources) (st, [])

/-- The store left by one scheduling pass. -/
def run_pass (dist : Task α → Resource α → α) (st : Store α) : Store α :=
  (greedy_scheduler dist st).1

/-- The assignments a pass appends to the store. -/
def new_assignments (dist : Task α → Resource α → α) (st : Store α) :
    List Assignment :=
  ((greedy_scheduler dist st).1.assignments).drop st.assignments.length

/-- Capacity invariant (spec section 8): every resource with positive
capacity has load at most its capacity. -/
def CapInv (st : Store α) : Prop :=
  ∀ r ∈ st.resources, 0 < r.capacity → (current_load st r.id : Int) ≤ r.capacity

instance (st : Store α) : Decidable (CapInv st) :=
  decidable_of_iff
    (∀ r ∈ st.resources, 0 < r.capacity → (current_load st r.id : Int) ≤ r.capacity)
    Iff.rfl

/-- Verification helper: the resource the inner loop ends with when the
current best is `b` and the resources still to scan are the list argument. -/
def maxsel (dist : Task α → Resource α → α) (st : Store α) (t : Task α)
    (b : Resource α) : List (Resource α) → Resource α
  | [] => b
  | r :: rs =>
    if feasible st r ∧ score_of dist st t r > score_of dist st t b
    then maxsel dist st t r rs else maxsel dist st t b rs

/-- Verification helper: the resource the inner loop selects from a full
resource list, starting from the `(none, -999)` accumulator. -/
def selInit (dist : Task α → Resource α → α) (st : Store α) (t : Task α) :
    List (Resource α) → Option (Resource α)
  | [] => none
  | r :: rs =>
    if feasible st r ∧ score_of dist st t r > -999
    then some (maxsel dist st t r rs) else selInit dist st t rs

/-- C-library `math.atan2` for finite real arguments. -/
noncomputable def atan2 (y x : ℝ) : ℝ :=
  if 0 < x then Real.arctan (y / x)
  else if x < 0 then
    (if 0 ≤ y then Real.arctan (y / x) + Real.pi else Real.arctan (y / x) - Real.pi)
  else if 0 < y then Real.pi / 2
  else if y < 0 then -(Real.pi / 2)
  else 0

/-- Python `math.radians`. -/
noncomputable def radians (x : ℝ) : ℝ := x * Real.pi / 180

/-- The intermediate value `a` of src/app.py line 59, with
`phi1 = radians lat1`, `phi2 = radians lat2`, `dphi = radians (lat2-lat1)`
and `dl = radians (lon2-lon1)` inlined. -/
noncomputable def hav_a (lat1 lon1 lat2 lon2 : ℝ) : ℝ :=
  Real.sin (radians (lat2 - lat1) / 2) ^ 2
    + Real.cos (radians lat1) * Real.cos (radians lat2)
      * Real.sin (radians (lon2 - lon1) / 2) ^ 2

/-- src/app.py lines 53-60: great-circle distance by the haversine formula
with Earth radius 6371 km: `R * 2 * atan2(sqrt a, sqrt (1-a))`. -/
noncomputable def haversine (lat1 lon1 lat2 lon2 : ℝ) : ℝ :=
  6371 * 2 * atan2 (Real.sqrt (hav_a lat1 lon1 lat2 lon2))
    (Real.sqrt (1 - hav_a lat1 lon1 lat2 lon2))

/-- The distance function the source scheduler uses (src/app.py line 101). -/
noncomputable def hav_dist : Task ℝ → Resource ℝ → ℝ :=
  fun t r => haversine t.lat t.lon r.lat r.lon

/-- The scheduling pass exactly as in the source: greedy over haversine. -/
noncomputable def greedy_scheduler_real (st : Store ℝ) : Store ℝ × List SchedOut :=
  greedy_scheduler hav_dist st

/-- The assignments one source scheduling pass appends to the store. -/
noncomputable def new_assignments_real (st : Store ℝ) : List Assignment :=
  new_assignments hav_dist st

/-- A JSON value for the numeric fields of an add-task request body: a
number or null.  (String payloads are outside the model; the claims about
the handler concern missing and null fields only.) -/
inductive Value (α : Type) where
  | num (x : α)
  | null
deriving DecidableEq

/-- The parsed JSON body of POST /api/tasks (src/app.py lines 162-171). -/
structure ReqBody (α : Type) where
  title : Option String
  description : Option String
  lat : Option (Value α)
  lon : Option (Value α)
  urgency : Option (Value α)
deriving DecidableEq

/-- The unhandled Python exceptions the raw add-task handler can raise. -/
inductive PyError where
  | keyError
  | typeError
deriving DecidableEq

/-- Python `d[k]`: KeyError when the key is missing. -/
def get_item {β : Type} (o : Option β) : Except PyError β :=
  match o with
  | some v => .ok v
  | none => .error .keyError

/-- Python `float(v)` on a JSON value. -/
def py_float (v : Value α) : Except PyError α :=
  match v with
  | .num x => .ok x
  | .null => .error .typeError

/-- Python `int(v)` on a JSON value. -/
def py_int (v : Value α) : Except PyError Int :=
  match v with
  | .num x => .ok (py_trunc x)
  | .null => .error .typeError

/-- src/app.py lines 162-178: the add-task handler: construct the Task row
(raising on a missing or non-numeric field), commit it, then run one
scheduling pass.  The keyword arguments are evaluated in source order. -/
def add_task (dist : Task α → Resource α → α) (body : ReqBody α)
    (st : Store α) : Except PyError (Store α × Nat) := do
  let title ← get_item body.title
  let descr := body.description.getD ""
  let lat ← py_float (← get_item body.lat)
  let lon ← py_float (← get_item body.lon)
  let urg ← py_int (← get_item body.urgency)
  let task : Task α :=
    { id := st.next_task_id, title := title, description := descr,
      lat := lat, lon := lon, urgency := urg,
      status := "pending", created_at := "" }
  let st1 : Store α :=
    { st with tasks := st.tasks ++ [task], next_task_id := st.next_task_id + 1 }
  .ok ((greedy_scheduler dist st1).1, task.id)

/-- The store-mutating operations of the HTTP surface. -/
inductive Op (α : Type) where
  | schedule
  | addTask (body : ReqBody α)

/-- The store after one operation; an unhandled exception commits nothing. -/
def apply_op (dist : Task α → Resource α → α) (op : Op α) (st : Store α) :
    Store α :=
  match op with
  | .schedule => (greedy_scheduler dist st).1
  | .addTask body =>
    match add_task dist body st with
    | .ok (st2, _) => st2
    | .error _ => st

/-- A sequence of store-mutating operations applied in order. -/
def apply_ops (dist : Task α → Resource α → α) (ops : List (Op α))
    (st : Store α) : Store α :=
  ops.foldl (fun s op => apply_op dist op s) st

/-- A distance function for concrete rational test stores: all points
coincide (for the source this is the haversine value between co-located
coordinates, which is exactly 0). -/
def distZero : Task ℚ → Resource ℚ → ℚ := fun _ _ => 0

/-! ### Concrete fixtures used by witnesses and counterexamples -/

def res_a : Resource ℚ :=
  { id := 1, name := "Team A", type := "maintenance", lat := 0, lon := 0, capacity := 1 }

def res_b : Resource ℚ :=
  { id := 2, name := "Team B", type := "waste", lat := 0, lon := 0, capacity := 1 }

def task_hi : Task ℚ :=
  { id := 1, title := "T1", description := "", lat := 0, lon := 0,
    urgency := 9, status := "pending", created_at := "" }

def task_lo : Task ℚ :=
  { id := 2, title := "T2", description := "", lat := 0, lon := 0,
    urgency := 4, status := "pending", created_at := "" }

def demo_store : Store ℚ :=
  { tasks := [task_hi, task_lo], resources := [res_a], assignments := [],
    next_task_id := 3, next_assignment_id := 1 }

/-- A pending task whose extreme negative urgency drives its score to
6/10 * (-16651/10) = -999.06, at or below the loop's -999 sentinel. -/
def cex_task : Task ℚ :=
  { id := 1, title := "T", description := "", lat := 0, lon := 0,
    urgency := -16651, status := "pending", created_at := "" }

def cex_store : Store ℚ :=
  { tasks := [cex_task], resources := [res_a], assignments := [],
    next_task_id := 2, next_assignment_id := 1 }

def empty_store : Store ℚ :=
  { tasks := [], resources := [], assignments := [],
    next_task_id := 1, next_assignment_id := 1 }

def body_no_title : ReqBody ℚ :=
  { title := none, description := none,
    lat := some (.num 1), lon := some (.num 2), urgency := some (.num 5) }

def body_no_lat : ReqBody ℚ :=
  { title := some "T", description := none,
    lat := none, lon := some (.num 2), urgency := some (.num 5) }

/-- Real-coordinate fixtures: a task at the origin, one resource at the
origin (haversine distance 0) and one a quarter of the globe away. -/
noncomputable def w9_r1 : Resource ℝ :=
  { id := 1, name := "A", type := "", lat := 0, lon := 0, capacity := 1 }

noncomputable def w9_r2 : Resource ℝ :=
  { id := 2, name := "B", type := "", lat := 0, lon := 90, capacity := 1 }

noncomputable def w9_t : Task ℝ :=
  { id := 1, title := "T", description := "", lat := 0, lon := 0,
    urgency := 5, status := "pending", created_at := "" }

noncomputable def w9_store : Store ℝ :=
  { tasks := [w9_t], resources := [w9_r1, w9_r2], assignments := [],
    next_task_id := 2, next_assignment_id := 1 }

/-- The store after the commit for task `t` and chosen resource `b`
(src/app.py lines 110-114): the new Assignment row is appended and the
task row's status is flipped to assigned. -/
def commit_store (dist : Task α → Resource α → α) (st : Store α) (t : Task α)
    (b : Resource α) : Store α :=
  { st with
    tasks := st.tasks.map
      (fun u => if u.id = t.id then { u with status := "assigned" } else u),
    assignments := st.assignments ++ [mk_assignment dist st t b],
    next_assignment_id := st.next_assignment_id + 1 }

/-- The output entry a pass records for task `t` and chosen resource `b`
(src/app.py line 116). -/
def out_entry (dist : Task α → Resource α → α) (st : Store α) (t : Task α)
    (b : Resource α) : SchedOut :=
  { task := t.title
    resource := b.name
    eta := (mk_assignment dist st t b).eta_minutes }

/-! ### Characterization of the inner selection loop -/

section Selection

variable (dist : Task α → Resource α → α) (st : Store α) (t : Task α)

lemma sel_step_skip (acc : Option (Resource α) × α × Option α)
    (r : Resource α) (hf : ¬ feasible st r) :
    sel_step dist st t acc r = acc := by
  simp only [feasible, not_lt] at hf
  simp [sel_step, hf]

lemma sel_step_gt (acc : Option (Resource α) × α × Option α)
    (r : Resource α) (hf : feasible st r)
    (hs : score_of dist st t r > acc.2.1) :
    sel_step dist st t acc r =
      (some r, score_of dist st t r, some (dist t r)) := by
  have hf' : ¬ ((current_load st r.id : Int) ≥ r.capacity) := not_le.mpr hf
  simp [sel_step, hf', hs]

lemma sel_step_keep (acc : Option (Resource α) × α × Option α)
    (r : Resource α) (hs : ¬ (score_of dist st t r > acc.2.1)) :
    sel_step dist st t acc r = acc := by
  by_cases hf : feasible st r
  · have hf' : ¬ ((current_load st r.id : Int) ≥ r.capacity) := not_le.mpr hf
    simp [sel_step, hf', hs]
  · exact sel_step_skip dist st t acc r hf

lemma sel_foldl_good (rs : List (Resource α)) :
    ∀ b : Resource α,
      rs.foldl (sel_step dist st t)
        (some b, score_of dist st t b, some (dist t b)) =
      (some (maxsel dist st t b rs), score_of dist st t (maxsel dist st t b rs),
        some (dist t (maxsel dist st t b rs))) := by
  induction rs with
  | nil => intro b; simp [maxsel]
  | cons r rs ih =>
    intro b
    rw [List.foldl_cons]
    by_cases hf : feasible st r
    · by_cases hs : score_of dist st t r > score_of dist st t b
      · rw [sel_step_gt dist st t _ r hf hs, ih r]
        simp [maxsel, hf, hs]
      · rw [sel_step_keep dist st t _ r hs, ih b]
        simp [maxsel, hs]
    · rw [sel_step_skip dist st t _ r hf, ih b]
      simp [maxsel, hf]

lemma select_best_eq (res : List (Resource α)) :
    select_best dist st t res =
      (selInit dist st t res).elim (none, -999, none)
        (fun b => (some b, score_of dist st t b, some (dist t b))) := by
  rw [select_best]
  induction res with
  | nil => simp [selInit]
  | cons r rs ih =>
    rw [List.foldl_cons]
    by_cases hf : feasible st r
    · by_cases hs : score_of dist st t r > -999
      · rw [sel_step_gt dist st t _ r hf hs, sel_foldl_good dist st t rs r]
        simp [selInit, hf, hs]
      · rw [sel_step_keep dist st t _ r hs, ih]
        simp [selInit, hs]
    · rw [sel_step_skip dist st t _ r hf, ih]
      simp [selInit, hf]

lemma select_best_of_none {res : List (Resource α)}
    (h : selInit dist st t res = none) :
    select_best dist st t res = (none, -999, none) := by
  rw [select_best_eq, h]; rfl

lemma select_best_of_some {res : List (Resource α)} {b : Resource α}
    (h : selInit dist st t res = some b) :
    select_best dist st t res =
      (some b, score_of dist st t b, some (dist t b)) := by
  rw [select_best_eq, h]; rfl

lemma maxsel_mem (rs : List (Resource α)) :
    ∀ b : Resource α, maxsel dist st t b rs = b ∨ maxsel dist st t b rs ∈ rs := by
  induction rs with
  | nil => intro b; simp [maxsel]
  | cons r rs ih =>
    intro b
    by_cases h : feasible st r ∧ score_of dist st t r > score_of dist st t b
    · rw [maxsel, if_pos h]
      rcases ih r with h1 | h1
      · exact Or.inr (by simp [h1])
      · exact Or.inr (by simp [h1])
    · rw [maxsel, if_neg h]
      rcases ih b with h1 | h1
      · exact Or.inl h1
      · exact Or.inr (by simp [h1])

lemma maxsel_feasible (rs : List (Resource α)) :
    ∀ b : Resource α, feasible st b → feasible st (maxsel dist st t b rs) := by
  induction rs with
  | nil => intro b hb; simpa [maxsel] using hb
  | cons r rs ih =>
    intro b hb
    by_cases h : feasible st r ∧ score_of dist st t r > score_of dist st t b
    · rw [maxsel, if_pos h]; exact ih r h.1
    · rw [maxsel, if_neg h]; exact ih b hb

lemma maxsel_score_le (rs : List (Resource α)) :
    ∀ b : Resource α,
      score_of dist st t b ≤ score_of dist st t (maxsel dist st t b rs) := by
  induction rs with
  | nil => intro b; simp [maxsel]
  | cons r rs ih =>
    intro b
    by_cases h : feasible st r ∧ score_of dist st t r > score_of dist st t b
    · rw [maxsel, if_pos h]
      exact le_of_lt (lt_of_lt_of_le h.2 (ih r))
    · rw [maxsel, if_neg h]; exact ih b

lemma maxsel_max (rs : List (Resource α)) :
    ∀ b : Resource α, ∀ r ∈ rs, feasible st r →
      score_of dist st t r ≤ score_of dist st t (maxsel dist st t b rs) := by
  induction rs with
  | nil => intro b r hr; simp at hr
  | cons x rs ih =>
    intro b r hr hfr
    rcases List.mem_cons.mp hr with rfl | hr
    · by_cases h : feasible st r ∧ score_of dist st t r > score_of dist st t b
      · rw [maxsel, if_pos h]; exact maxsel_score_le dist st t rs r
      · rw [maxsel, if_neg h]
        have hle : score_of dist st t r ≤ score_of dist st t b := by
          by_contra hgt
          exact h ⟨hfr, lt_of_not_le hgt⟩
        exact le_trans hle (maxsel_score_le dist st t rs b)
    · by_cases h : feasible st x ∧ score_of dist st t x > score_of dist st t b
      · rw [maxsel, if_pos h]; exact ih x r hr hfr
      · rw [maxsel, if_neg h]; exact ih b r hr hfr

lemma maxsel_first (rs : List (Resource α)) :
    ∀ b : Resource α, ∃ pre suf,
      b :: rs = pre ++ maxsel dist st t b rs :: suf ∧
      (∀ x ∈ pre, feasible st x →
        score_of dist st t x < score_of dist st t (maxsel dist st t b rs)) ∧
      (pre = [] → maxsel dist st t b rs = b) ∧
      (pre ≠ [] → score_of dist st t b < score_of dist st t (maxsel dist st t b rs)) := by
  induction rs with
  | nil =>
    intro b
    exact ⟨[], [], by simp [maxsel], by simp, fun _ => by simp [maxsel], by simp⟩
  | cons r rs ih =>
    intro b
    by_cases h : feasible st r ∧ score_of dist st t r > score_of dist st t b
    · rw [maxsel, if_pos h]
      obtain ⟨pre, suf, heq, hpre, hnil, hne⟩ := ih r
      refine ⟨b :: pre, suf, by simpa using heq, ?_, by simp, ?_⟩
      · intro x hx hfx
        rcases List.mem_cons.mp hx with rfl | hx
        · exact lt_of_lt_of_le h.2 (maxsel_score_le dist st t rs r)
        · exact hpre x hx hfx
      · intro _
        exact lt_of_lt_of_le h.2 (maxsel_score_le dist st t rs r)
    · rw [maxsel, if_neg h]
      obtain ⟨pre, suf, heq, hpre, hnil, hne⟩ := ih b
      cases pre with
      | nil =>
        have hb : maxsel dist st t b rs = b := hnil rfl
        refine ⟨[], r :: rs, by simp [hb], by simp, fun _ => hb, by simp⟩
      | cons p pre0 =>
        have hp : b = p := by
          simpa using congrArg List.head? heq
        subst hp
        have hlt : score_of dist st t b < score_of dist st t (maxsel dist st t b rs) :=
          hne (by simp)
        have htail : rs = pre0 ++ maxsel dist st t b rs :: suf := by
          simpa using congrArg List.tail heq
        refine ⟨b :: r :: pre0, suf,
          congrArg (fun l => b :: r :: l) htail, ?_, by simp, fun _ => hlt⟩
        intro x hx hfx
        rcases List.mem_cons.mp hx with rfl | hx
        · exact hlt
        rcases List.mem_cons.mp hx with rfl | hx
        · have hle : score_of dist st t x ≤ score_of dist st t b := by
            by_contra hgt
            exact h ⟨hfx, lt_of_not_le hgt⟩
          exact lt_of_le_of_lt hle hlt
        · exact hpre x (List.mem_cons_of_mem b hx) hfx

lemma selInit_sound {res : List (Resource α)} {b : Resource α}
    (h : selInit dist st t res = some b) :
    b ∈ res ∧ feasible st b ∧ -999 < score_of dist st t b := by
  induction res with
  | nil => simp [selInit] at h
  | cons r rs ih =>
    by_cases hc : feasible st r ∧ score_of dist st t r > -999
    · rw [selInit, if_pos hc] at h
      have hb : b = maxsel dist st t r rs := by
        exact (Option.some_inj.mp h).symm
      subst hb
      refine ⟨?_, maxsel_feasible dist st t rs r hc.1, ?_⟩
      · rcases maxsel_mem dist st t rs r with h1 | h1
        · simp [h1]
        · simp [h1]
      · exact lt_of_lt_of_le hc.2 (maxsel_score_le dist st t rs r)
    · rw [selInit, if_neg hc] at h
      obtain ⟨h1, h2, h3⟩ := ih h
      exact ⟨by simp [h1], h2, h3⟩

lemma selInit_max {res : List (Resource α)} {b : Resource α}
    (h : selInit dist st t res = some b) :
    ∀ r ∈ res, feasible st r → score_of dist st t r ≤ score_of dist st t b := by
  induction res with
  | nil => simp [selInit] at h
  | cons x rs ih =>
    intro r hr hfr
    by_cases hc : feasible st x ∧ score_of dist st t x > -999
    · rw [selInit, if_pos hc] at h
      have hb : b = maxsel dist st t x rs := (Option.some_inj.mp h).symm
      subst hb
      rcases List.mem_cons.mp hr with rfl | hr
      · exact maxsel_score_le dist st t rs r
      · exact maxsel_max dist st t rs x r hr hfr
    · rw [selInit, if_neg hc] at h
      rcases List.mem_cons.mp hr with rfl | hr
      · have hle : score_of dist st t r ≤ -999 := by
          by_contra hgt
          exact hc ⟨hfr, lt_of_not_le hgt⟩
        have := (selInit_sound dist st t h).2.2
        exact le_of_lt (lt_of_le_of_lt hle this)
      · exact ih h r hr hfr

lemma selInit_first {res : List (Resource α)} {b : Resource α}
    (h : selInit dist st t res = some b) :
    ∃ pre suf, res = pre ++ b :: suf ∧
      ∀ x ∈ pre, feasible st x → score_of dist st t x < score_of dist st t b := by
  induction res with
  | nil => simp [selInit] at h
  | cons x rs ih =>
    by_cases hc : feasible st x ∧ score_of dist st t x > -999
    · rw [selInit, if_pos hc] at h
      have hb : b = maxsel dist st t x rs := (Option.some_inj.mp h).symm
      subst hb
      obtain ⟨pre, suf, heq, hpre, _, _⟩ := maxsel_first dist st t rs x
      exact ⟨pre, suf, heq, hpre⟩
    · rw [selInit, if_neg hc] at h
      obtain ⟨pre, suf, heq, hpre⟩ := ih h
      refine ⟨x :: pre, suf, by simp [heq], ?_⟩
      intro y hy hfy
      rcases List.mem_cons.mp hy with rfl | hy
      · have hle : score_of dist st t y ≤ -999 := by
          by_contra hgt
          exact hc ⟨hfy, lt_of_not_le hgt⟩
        exact lt_of_le_of_lt hle (selInit_sound dist st t h).2.2
      · exact hpre y hy hfy

lemma selInit_isSome {res : List (Resource α)}
    (h : ∃ r ∈ res, feasible st r ∧ -999 < score_of dist st t r) :
    ∃ b, selInit dist st t res = some b := by
  induction res with
  | nil => simp at h
  | cons x rs ih =>
    by_cases hc : feasible st x ∧ score_of dist st t x > -999
    · exact ⟨maxsel dist st t x rs, by rw [selInit, if_pos hc]⟩
    · rw [selInit, if_neg hc]
      apply ih
      obtain ⟨r, hr, hfr, hsr⟩ := h
      rcases List.mem_cons.mp hr with rfl | hr
      · exact absurd ⟨hfr, hsr⟩ hc
      · exact ⟨r, hr, hfr, hsr⟩

end Selection

/-! ### The one-task step and the pass fold -/

section StepFold

variable (dist : Task α → Resource α → α) (res : List (Resource α))

lemma sched_step_of_none (acc : Store α × List SchedOut) (t : Task α)
    (h : selInit dist acc.1 t res = none) :
    sched_step dist res acc t = acc := by
  simp only [sched_step, select_best_of_none dist acc.1 t h]

lemma sched_step_of_some (acc : Store α × List SchedOut) (t : Task α)
    (b : Resource α) (h : selInit dist acc.1 t res = some b) :
    sched_step dist res acc t =
      (commit_store dist acc.1 t b, acc.2 ++ [out_entry dist acc.1 t b]) := by
  simp only [sched_step, select_best_of_some dist acc.1 t h]
  rfl

lemma sched_step_cases (acc : Store α × List SchedOut) (t : Task α) :
    sched_step dist res acc t = acc ∨
    ∃ b, selInit dist acc.1 t res = some b ∧
      sched_step dist res acc t =
        (commit_store dist acc.1 t b, acc.2 ++ [out_entry dist acc.1 t b]) := by
  rcases h : selInit dist acc.1 t res with _ | b
  · exact Or.inl (sched_step_of_none dist res acc t h)
  · exact Or.inr ⟨b, rfl, sched_step_of_some dist res acc t b h⟩

lemma commit_store_resources (st : Store α) (t : Task α) (b : Resource α) :
    (commit_store dist st t b).resources = st.resources := rfl

lemma current_load_commit (st : Store α) (t : Task α) (b : Resource α)
    (rid : Nat) :
    current_load (commit_store dist st t b) rid =
      current_load st rid + (if b.id = rid then 1 else 0) := by
  by_cases h : b.id = rid
  · simp [current_load, commit_store, mk_assignment, List.filter_append, h]
  · simp [current_load, commit_store, mk_assignment, List.filter_append, h]

lemma sched_step_resources (acc : Store α × List SchedOut) (t : Task α) :
    (sched_step dist res acc t).1.resources = acc.1.resources := by
  rcases sched_step_cases dist res acc t with h | ⟨b, _, h⟩
  · rw [h]
  · rw [h]; rfl

lemma foldl_sched_resources (ts : List (Task α)) :
    ∀ acc : Store α × List SchedOut,
      ((ts.foldl (sched_step dist res) acc).1).resources = acc.1.resources := by
  induction ts with
  | nil => intro acc; rfl
  | cons t ts ih =>
    intro acc
    rw [List.foldl_cons, ih (sched_step dist res acc t),
      sched_step_resources dist res acc t]

lemma foldl_sched_assignments (ts : List (Task α)) :
    ∀ acc : Store α × List SchedOut, ∃ new,
      ((ts.foldl (sched_step dist res) acc).1).assignments =
        acc.1.assignments ++ new := by
  induction ts with
  | nil => intro acc; exact ⟨[], by simp⟩
  | cons t ts ih =>
    intro acc
    obtain ⟨new1, h1⟩ := ih (sched_step dist res acc t)
    rcases sched_step_cases dist res acc t with h | ⟨b, _, h⟩
    · refine ⟨new1, ?_⟩
      rw [List.foldl_cons]
      rw [h] at h1 ⊢
      exact h1
    · refine ⟨[mk_assignment dist acc.1 t b] ++ new1, ?_⟩
      rw [List.foldl_cons]
      rw [h] at h1 ⊢
      rw [h1]
      simp [commit_store]

lemma current_load_mono_append {st1 st2 : Store α} {new : List Assignment}
    (h : st2.assignments = st1.assignments ++ new) (rid : Nat) :
    current_load st1 rid ≤ current_load st2 rid := by
  simp [current_load, h, List.filter_append]

lemma foldl_sched_load_mono (ts : List (Task α))
    (acc : Store α × List SchedOut) (rid : Nat) :
    current_load acc.1 rid ≤
      current_load ((ts.foldl (sched_step dist res) acc).1) rid := by
  obtain ⟨new, h⟩ := foldl_sched_assignments dist res ts acc
  exact current_load_mono_append h rid

lemma sched_step_capinv (acc : Store α × List SchedOut) (t : Task α)
    (hres : acc.1.resources = res)
    (hnd : (res.map Resource.id).Nodup) (hinv : CapInv acc.1) :
    CapInv (sched_step dist res acc t).1 := by
  rcases sched_step_cases dist res acc t with h | ⟨b, hsel, h⟩
  · rw [h]; exact hinv
  · obtain ⟨hbmem, hbfeas, _⟩ := selInit_sound dist acc.1 t hsel
    rw [h]
    intro r hr hcap
    have hr' : r ∈ res := by
      rw [commit_store_resources dist acc.1 t b, hres] at hr
      exact hr
    rw [current_load_commit dist acc.1 t b r.id]
    by_cases hid : b.id = r.id
    · have hbr : b = r :=
        List.inj_on_of_nodup_map hnd hbmem hr' hid
      subst hbr
      have hlt : (current_load acc.1 b.id : Int) < b.capacity := hbfeas
      push_cast
      omega
    · have := hinv r (by rw [hres]; exact hr') hcap
      simp [hid]
      exact this

lemma foldl_sched_capinv (ts : List (Task α))
    (hnd : (res.map Resource.id).Nodup) :
    ∀ acc : Store α × List SchedOut, acc.1.resources = res → CapInv acc.1 →
      CapInv ((ts.foldl (sched_step dist res) acc).1) := by
  induction ts with
  | nil => intro acc _ hinv; exact hinv
  | cons t ts ih =>
    intro acc hres hinv
    rw [List.foldl_cons]
    refine ih (sched_step dist res acc t) ?_ ?_
    · rw [sched_step_resources dist res acc t]; exact hres
    · exact sched_step_capinv dist res acc t hres hnd hinv

end StepFold

section Pass

variable (dist : Task α → Resource α → α)

lemma run_pass_resources (st : Store α) :
    (run_pass dist st).resources = st.resources :=
  foldl_sched_resources dist st.resources (pass_order st) (st, [])

lemma run_pass_capinv (st : Store α)
    (hnd : (st.resources.map Resource.id).Nodup) (hinv : CapInv st) :
    CapInv (run_pass dist st) :=
  foldl_sched_capinv dist st.resources (pass_order st) hnd (st, []) rfl hinv

lemma run_pass_load_mono (st : Store α) (rid : Nat) :
    current_load st rid ≤ current_load (run_pass dist st) rid :=
  foldl_sched_load_mono dist st.resources (pass_order st) (st, []) rid

end Pass

/-! ### The task ordering: descending urgency, stable -/

section Sorting

lemma mem_insertTask {x y : Task α} {l : List (Task α)} :
    y ∈ insertTask x l ↔ y = x ∨ y ∈ l := by
  induction l with
  | nil => simp [insertTask]
  | cons z zs ih =>
    by_cases h : taskLe x z
    · simp [insertTask, h]
    · simp [insertTask, h, ih]
      tauto

lemma insertTask_perm (x : Task α) (l : List (Task α)) :
    (insertTask x l).Perm (x :: l) := by
  induction l with
  | nil => simp [insertTask]
  | cons z zs ih =>
    by_cases h : taskLe x z
    · simp [insertTask, h]
    · rw [insertTask, if_neg h]
      exact (ih.cons z).trans (List.Perm.swap x z zs)

lemma sortTasks_perm (l : List (Task α)) : (sortTasks l).Perm l := by
  induction l with
  | nil => simp [sortTasks]
  | cons x xs ih =>
    exact (insertTask_perm x (sortTasks xs)).trans (ih.cons x)

lemma mem_sortTasks {y : Task α} {l : List (Task α)} :
    y ∈ sortTasks l ↔ y ∈ l :=
  (sortTasks_perm l).mem_iff

lemma pairwise_insertTask (x : Task α) (l : List (Task α))
    (h : List.Pairwise (fun a b : Task α => b.urgency ≤ a.urgency) l) :
    List.Pairwise (fun a b : Task α => b.urgency ≤ a.urgency) (insertTask x l) := by
  induction l with
  | nil => simp [insertTask]
  | cons y ys ih =>
    rcases List.pairwise_cons.mp h with ⟨hy, hys⟩
    by_cases hle : taskLe x y
    · have hxy : y.urgency ≤ x.urgency := by
        have h1 := hle
        simp [taskLe] at h1
        omega
      rw [insertTask, if_pos hle]
      refine List.pairwise_cons.mpr ⟨?_, h⟩
      intro z hz
      rcases List.mem_cons.mp hz with rfl | hz
      · exact hxy
      · exact le_trans (hy z hz) hxy
    · have hyx : x.urgency < y.urgency := by
        have h1 := hle
        simp [taskLe] at h1
        omega
      rw [insertTask, if_neg hle]
      refine List.pairwise_cons.mpr ⟨?_, ih hys⟩
      intro z hz
      rcases mem_insertTask.mp hz with rfl | hz
      · exact le_of_lt hyx
      · exact hy z hz

lemma sortTasks_sorted (l : List (Task α)) :
    List.Pairwise (fun a b : Task α => b.urgency ≤ a.urgency) (sortTasks l) := by
  induction l with
  | nil => simp [sortTasks]
  | cons x xs ih => exact pairwise_insertTask x (sortTasks xs) ih

lemma filter_insertTask (x : Task α) (l : List (Task α)) (u : Int) :
    (insertTask x l).filter (fun t => t.urgency == u) =
      if x.urgency = u then x :: l.filter (fun t => t.urgency == u)
      else l.filter (fun t => t.urgency == u) := by
  induction l with
  | nil =>
    by_cases h : x.urgency = u
    · simp [insertTask, h]
    · simp [insertTask, h]
  | cons y ys ih =>
    by_cases hle : taskLe x y
    · by_cases h : x.urgency = u
      · simp [insertTask, hle, h]
      · simp [insertTask, hle, h]
    · have hyx : x.urgency < y.urgency := by
        have h1 := hle
        simp [taskLe] at h1
        omega
      by_cases h : x.urgency = u
      · have hy : ¬ (y.urgency = u) := by omega
        simp [insertTask, hle, h, hy, ih]
      · by_cases hy : y.urgency = u
        · simp [insertTask, hle, h, hy, ih]
        · simp [insertTask, hle, h, hy, ih]

lemma sortTasks_filter (l : List (Task α)) (u : Int) :
    (sortTasks l).filter (fun t => t.urgency == u) =
      l.filter (fun t => t.urgency == u) := by
  induction l with
  | nil => simp [sortTasks]
  | cons x xs ih =>
    rw [sortTasks, filter_insertTask x (sortTasks xs) u]
    by_cases h : x.urgency = u
    · simp [h, ih]
    · simp [h, ih]

end Sorting

/-! ### A saturated resource receives nothing for the rest of the pass -/

section Saturation

variable (dist : Task α → Resource α → α) (res : List (Resource α))

lemma sched_step_load_saturated (acc : Store α × List SchedOut) (t : Task α)
    {r : Resource α} (hnd : (res.map Resource.id).Nodup) (hr : r ∈ res)
    (hsat : (current_load acc.1 r.id : Int) ≥ r.capacity) :
    current_load (sched_step dist res acc t).1 r.id = current_load acc.1 r.id := by
  rcases sched_step_cases dist res acc t with h | ⟨b, hsel, h⟩
  · rw [h]
  · obtain ⟨hbmem, hbfeas, _⟩ := selInit_sound dist acc.1 t hsel
    rw [h]
    rw [current_load_commit dist acc.1 t b r.id]
    have hid : ¬ (b.id = r.id) := by
      intro hid
      have hbr : b = r := List.inj_on_of_nodup_map hnd hbmem hr hid
      subst hbr
      exact absurd hbfeas (not_lt.mpr hsat)
    simp [hid]

lemma foldl_sched_load_saturated (ts : List (Task α))
    (hnd : (res.map Resource.id).Nodup) {r : Resource α} (hr : r ∈ res) :
    ∀ acc : Store α × List SchedOut,
      (current_load acc.1 r.id : Int) ≥ r.capacity →
      current_load ((ts.foldl (sched_step dist res) acc).1) r.id =
        current_load acc.1 r.id := by
  induction ts with
  | nil => intro acc _; rfl
  | cons t ts ih =>
    intro acc hsat
    rw [List.foldl_cons]
    have hstep := sched_step_load_saturated dist res acc t hnd hr hsat
    rw [ih (sched_step dist res acc t) (by rw [hstep]; exact hsat), hstep]

end Saturation

/-! ### Shape of the assignments a pass creates -/

section NewAssignments

variable (dist : Task α → Resource α → α) (res : List (Resource α))

lemma py_trunc_of_nonneg {x : α} (h : 0 ≤ x) : py_trunc x = ⌊x⌋ := if_pos h

lemma mem_foldl_new (ts : List (Task α)) :
    ∀ (acc : Store α × List SchedOut) (a : Assignment),
      a ∈ ((ts.foldl (sched_step dist res) acc).1.assignments.drop
        acc.1.assignments.length) →
      ∃ t ∈ ts, ∃ b ∈ res, a.task_id = t.id ∧ a.resource_id = b.id ∧
        a.eta_minutes = py_trunc (dist t b / 30 * 60) + 5 := by
  induction ts with
  | nil =>
    intro acc a ha
    simp [List.drop_length] at ha
  | cons t ts ih =>
    intro acc a ha
    rw [List.foldl_cons] at ha
    rcases sched_step_cases dist res acc t with h | ⟨b, hsel, h⟩
    · rw [h] at ha
      obtain ⟨t1, ht1, b1, hb1, h1⟩ := ih acc a ha
      exact ⟨t1, List.mem_cons_of_mem t ht1, b1, hb1, h1⟩
    · obtain ⟨hbmem, _, _⟩ := selInit_sound dist acc.1 t hsel
      rw [h] at ha
      obtain ⟨new, hnew⟩ :=
        foldl_sched_assignments dist res ts
          (commit_store dist acc.1 t b, acc.2 ++ [out_entry dist acc.1 t b])
      have hcommit :
          (commit_store dist acc.1 t b).assignments =
            acc.1.assignments ++ [mk_assignment dist acc.1 t b] := rfl
      rw [hnew] at ha
      simp only [hcommit] at ha
      rw [List.append_assoc, List.drop_left] at ha
      rcases List.mem_cons.mp (by simpa using ha) with rfl | hmem
      · exact ⟨t, List.mem_cons_self t ts, b, hbmem, rfl, rfl, rfl⟩
      · obtain ⟨t1, ht1, b1, hb1, h1⟩ :=
          ih (commit_store dist acc.1 t b, acc.2 ++ [out_entry dist acc.1 t b]) a
            (by rw [hnew, List.drop_left]; exact hmem)
        exact ⟨t1, List.mem_cons_of_mem t ht1, b1, hb1, h1⟩

lemma mem_new_assignments {st : Store α} {a : Assignment}
    (ha : a ∈ new_assignments dist st) :
    ∃ t, t ∈ st.tasks ∧ t.status = "pending" ∧ ∃ b, b ∈ st.resources ∧
      a.task_id = t.id ∧ a.resource_id = b.id ∧
      a.eta_minutes = py_trunc (dist t b / 30 * 60) + 5 := by
  obtain ⟨t, ht, b, hb, h1, h2, h3⟩ :=
    mem_foldl_new dist st.resources (pass_order st) (st, []) a ha
  have ht' : t ∈ pending_tasks st := mem_sortTasks.mp ht
  obtain ⟨htm, hts⟩ := List.mem_filter.mp ht'
  exact ⟨t, htm, by simpa using hts, b, hb, h1, h2, h3⟩

end NewAssignments

/-! ### Facts about the haversine distance -/

section Haversine

lemma atan2_nonneg {y x : ℝ} (hy : 0 ≤ y) : 0 ≤ atan2 y x := by
  rw [atan2]
  by_cases h1 : 0 < x
  · rw [if_pos h1]
    have h : (0:ℝ) ≤ y / x := div_nonneg hy (le_of_lt h1)
    have h2 := Real.arctan_strictMono.monotone h
    rwa [Real.arctan_zero] at h2
  · rw [if_neg h1]
    by_cases h2 : x < 0
    · rw [if_pos h2, if_pos hy]
      have h3 := Real.neg_pi_div_two_lt_arctan (y / x)
      have hpi := Real.pi_pos
      linarith
    · rw [if_neg h2]
      by_cases h3 : 0 < y
      · rw [if_pos h3]
        have hpi := Real.pi_pos
        linarith
      · rw [if_neg h3, if_neg (not_lt.mpr hy)]

lemma haversine_nonneg (lat1 lon1 lat2 lon2 : ℝ) :
    0 ≤ haversine lat1 lon1 lat2 lon2 := by
  unfold haversine
  have h := atan2_nonneg (x := Real.sqrt (1 - hav_a lat1 lon1 lat2 lon2))
    (Real.sqrt_nonneg (hav_a lat1 lon1 lat2 lon2))
  positivity

lemma radians_zero : radians 0 = 0 := by simp [radians]

lemma hav_a_same (lat lon : ℝ) : hav_a lat lon lat lon = 0 := by
  simp [hav_a, radians]

lemma haversine_same (lat lon : ℝ) : haversine lat lon lat lon = 0 := by
  rw [haversine, hav_a_same]
  simp [atan2, Real.arctan_zero]

lemma hav_a_quarter : hav_a 0 0 0 90 = 1 / 2 := by
  have h90 : radians 90 = Real.pi / 2 := by rw [radians]; ring
  have h45 : Real.pi / 2 / 2 = Real.pi / 4 := by ring
  have hsq : (Real.sqrt 2 / 2) ^ 2 = 1 / 2 := by
    rw [div_pow, Real.sq_sqrt (by norm_num : (0:ℝ) ≤ 2)]
    norm_num
  rw [hav_a]
  norm_num [radians_zero, h90, h45, Real.sin_pi_div_four, hsq]

lemma haversine_quarter : haversine 0 0 0 90 = 6371 * 2 * (Real.pi / 4) := by
  rw [haversine, hav_a_quarter]
  have hs : (0:ℝ) < Real.sqrt (1/2) := Real.sqrt_pos.mpr (by norm_num)
  have h1 : (1:ℝ) - 1/2 = 1/2 := by norm_num
  rw [h1, atan2, if_pos hs, div_self (ne_of_gt hs), Real.arctan_one]

lemma haversine_quarter_pos : 0 < haversine 0 0 0 90 := by
  rw [haversine_quarter]
  have := Real.pi_pos
  positivity

end Haversine

/-! ### The add-task handler -/

section AddTask

variable (dist : Task α → Resource α → α)

lemma add_task_missing_err (body : ReqBody α) (st : Store α)
    (h : body.title = none ∨ body.lat = none ∨ body.lon = none ∨
      body.urgency = none) :
    ∃ e, add_task dist body st = Except.error e := by
  rcases h with h | h | h | h
  · exact ⟨.keyError, by simp [add_task, h, get_item, Bind.bind, Except.bind]⟩
  · cases ht : body.title with
    | none => exact ⟨.keyError, by simp [add_task, ht, get_item, Bind.bind, Except.bind]⟩
    | some s =>
      exact ⟨.keyError, by simp [add_task, ht, h, get_item, Bind.bind, Except.bind]⟩
  · cases ht : body.title with
    | none => exact ⟨.keyError, by simp [add_task, ht, get_item, Bind.bind, Except.bind]⟩
    | some s =>
      cases hl : body.lat with
      | none =>
        exact ⟨.keyError, by simp [add_task, ht, hl, get_item, Bind.bind, Except.bind]⟩
      | some v =>
        cases v with
        | null =>
          exact ⟨.typeError,
            by simp [add_task, ht, hl, get_item, py_float, Bind.bind, Except.bind]⟩
        | num x =>
          exact ⟨.keyError,
            by simp [add_task, ht, hl, h, get_item, py_float, Bind.bind, Except.bind]⟩
  · cases ht : body.title with
    | none => exact ⟨.keyError, by simp [add_task, ht, get_item, Bind.bind, Except.bind]⟩
    | some s =>
      cases hl : body.lat with
      | none =>
        exact ⟨.keyError, by simp [add_task, ht, hl, get_item, Bind.bind, Except.bind]⟩
      | some v =>
        cases v with
        | null =>
          exact ⟨.typeError,
            by simp [add_task, ht, hl, get_item, py_float, Bind.bind, Except.bind]⟩
        | num x =>
          cases ho : body.lon with
          | none =>
            exact ⟨.keyError,
              by simp [add_task, ht, hl, ho, get_item, py_float, Bind.bind, Except.bind]⟩
          | some w =>
            cases w with
            | null =>
              exact ⟨.typeError,
                by simp [add_task, ht, hl, ho, get_item, py_float, Bind.bind, Except.bind]⟩
            | num y =>
              exact ⟨.keyError,
                by simp [add_task, ht, hl, ho, h, get_item, py_float, Bind.bind, Except.bind]⟩

lemma add_task_ok_spec {body : ReqBody α} {st st2 : Store α} {n : Nat}
    (h : add_task dist body st = Except.ok (st2, n)) :
    ∃ tk : Task α,
      st2 = run_pass dist
        { st with tasks := st.tasks ++ [tk], next_task_id := st.next_task_id + 1 } := by
  cases ht : body.title with
  | none => simp [add_task, ht, get_item, Bind.bind, Except.bind] at h
  | some s =>
    cases hl : body.lat with
    | none => simp [add_task, ht, hl, get_item, Bind.bind, Except.bind] at h
    | some v =>
      cases v with
      | null => simp [add_task, ht, hl, get_item, py_float, Bind.bind, Except.bind] at h
      | num x =>
        cases ho : body.lon with
        | none => simp [add_task, ht, hl, ho, get_item, py_float, Bind.bind, Except.bind] at h
        | some w =>
          cases w with
          | null =>
            simp [add_task, ht, hl, ho, get_item, py_float, Bind.bind, Except.bind] at h
          | num y =>
            cases hu : body.urgency with
            | none =>
              simp [add_task, ht, hl, ho, hu, get_item, py_float, Bind.bind, Except.bind] at h
            | some z =>
              cases z with
              | null =>
                simp [add_task, ht, hl, ho, hu, get_item, py_float, py_int,
                  Bind.bind, Except.bind] at h
              | num u =>
                simp [add_task, ht, hl, ho, hu, get_item, py_float, py_int,
                  Bind.bind, Except.bind] at h
                exact ⟨_, h.1.symm⟩

lemma current_load_tasks_irrelevant (st1 st2 : Store α)
    (h : st1.assignments = st2.assignments) (rid : Nat) :
    current_load st1 rid = current_load st2 rid := by
  simp [current_load, h]

lemma apply_op_load_mono (op : Op α) (st : Store α) (rid : Nat) :
    current_load st rid ≤ current_load (apply_op dist op st) rid := by
  cases op with
  | schedule => exact run_pass_load_mono dist st rid
  | addTask body =>
    rw [apply_op]
    cases h : add_task dist body st with
    | error e => exact le_refl _
    | ok p =>
      obtain ⟨st2, n⟩ := p
      obtain ⟨tk, h2⟩ := add_task_ok_spec dist h
      subst h2
      show current_load st rid ≤ current_load
        (run_pass dist { st with tasks := st.tasks ++ [tk], next_task_id := st.next_task_id + 1 }) rid
      exact run_pass_load_mono dist
        { st with tasks := st.tasks ++ [tk], next_task_id := st.next_task_id + 1 } rid

lemma apply_ops_load_mono (ops : List (Op α)) :
    ∀ (st : Store α) (rid : Nat),
      current_load st rid ≤ current_load (apply_ops dist ops st) rid := by
  induction ops with
  | nil => intro st rid; exact le_refl _
  | cons op ops ih =>
    intro st rid
    calc current_load st rid
        ≤ current_load (apply_op dist op st) rid := apply_op_load_mono dist op st rid
      _ ≤ _ := ih (apply_op dist op st) rid

end AddTask

lemma iterate_run_pass_resources (dist : Task α → Resource α → α) (n : ℕ)
    (st : Store α) : ((run_pass dist)^[n] st).resources = st.resources := by
  induction n with
  | zero => rfl
  | succ n ih =>
    rw [Function.iterate_succ_apply', run_pass_resources, ih]

/-! ### Evaluation of the concrete fixtures -/

section Fixtures

lemma demo_cond :
    feasible demo_store res_a ∧
      score_of distZero demo_store task_hi res_a > -999 := by
  constructor
  · decide
  · norm_num [score_of, current_load, distZero, demo_store, task_hi, res_a]

lemma demo_selInit :
    selInit distZero demo_store task_hi demo_store.resources = some res_a := by
  show selInit distZero demo_store task_hi [res_a] = some res_a
  simp only [selInit, if_pos demo_cond, maxsel]

lemma demo_first_step :
    [task_hi].foldl (sched_step distZero demo_store.resources) (demo_store, []) =
      (commit_store distZero demo_store task_hi res_a,
        [] ++ [out_entry distZero demo_store task_hi res_a]) := by
  rw [List.foldl_cons, List.foldl_nil]
  exact sched_step_of_some distZero demo_store.resources (demo_store, [])
    task_hi res_a demo_selInit

lemma demo_saturated :
    (current_load (([task_hi].foldl (sched_step distZero demo_store.resources)
      (demo_store, [])).1) res_a.id : Int) ≥ res_a.capacity := by
  rw [demo_first_step]
  show (current_load (commit_store distZero demo_store task_hi res_a) res_a.id : Int)
    ≥ res_a.capacity
  rw [current_load_commit]
  decide

lemma cex_cond :
    ¬ (feasible cex_store res_a ∧
      score_of distZero cex_store cex_task res_a > -999) := by
  intro hand
  have h := hand.2
  norm_num [score_of, current_load, distZero, cex_store, cex_task, res_a] at h

lemma cex_selInit :
    selInit distZero cex_store cex_task cex_store.resources = none := by
  show selInit distZero cex_store cex_task [res_a] = none
  simp only [selInit, if_neg cex_cond]

lemma cex_pass : greedy_scheduler distZero cex_store = (cex_store, []) := by
  have hord : pass_order cex_store = [cex_task] := rfl
  rw [greedy_scheduler, hord, List.foldl_cons, List.foldl_nil]
  exact sched_step_of_none distZero cex_store.resources (cex_store, [])
    cex_task cex_selInit

end Fixtures

/-! ### The claims -/

/-- C1: starting from a store satisfying the capacity invariant (with
distinct resource ids, as the primary key guarantees), any number of
scheduling passes preserves activeLoad(r) ≤ r.capacity for every resource
of positive capacity; moreover each one-task step either leaves the
assignment table unchanged or appends exactly one assignment to a resource
whose active-assignment count before the commit is strictly below its
capacity. -/
theorem capacity_invariant_passes (dist : Task α → Resource α → α) (n : ℕ)
    (st : Store α) (hnd : (st.resources.map Resource.id).Nodup)
    (hinv : CapInv st) :
    CapInv ((run_pass dist)^[n] st) ∧
    ∀ (res : List (Resource α)) (st1 : Store α) (out : List SchedOut) (t : Task α),
      (sched_step dist res (st1, out) t).1.assignments = st1.assignments ∨
      ∃ b ∈ res, (current_load st1 b.id : Int) < b.capacity ∧
        (sched_step dist res (st1, out) t).1.assignments =
          st1.assignments ++ [mk_assignment dist st1 t b] := by
  constructor
  · induction n with
    | zero => exact hinv
    | succ n ih =>
      rw [Function.iterate_succ_apply']
      refine run_pass_capinv dist _ ?_ ih
      rw [iterate_run_pass_resources]
      exact hnd
  · intro res st1 out t
    rcases sched_step_cases dist res (st1, out) t with h | ⟨b, hsel, h⟩
    · left; rw [h]
    · right
      obtain ⟨hbmem, hbfeas, _⟩ := selInit_sound dist st1 t hsel
      exact ⟨b, hbmem, hbfeas, by rw [h]; rfl⟩

/-- Witness for C1: a concrete rational store, two passes. -/
theorem capacity_invariant_passes_witness :
    ((demo_store.resources.map Resource.id).Nodup ∧ CapInv demo_store) ∧
    CapInv ((run_pass distZero)^[2] demo_store) :=
  ⟨⟨by decide, by decide⟩,
    (capacity_invariant_passes distZero 2 demo_store (by decide) (by decide)).1⟩

/-- C2 counterexample: in `cex_store` the single resource is feasible (its
load 0 is below its capacity 1) and the single task is pending, yet a pass
creates no assignment and returns no output entry, because the task's score
6/10 * (-16651/10) = -999.06 does not exceed the -999 sentinel
(`best_score = -999`) the loop starts from.  (For the source this is a task
co-located with the resource, haversine distance exactly 0, so the same
skip happens with float arithmetic: 0.6*(-16651/10) ≈ -999.06 < -999.) -/
theorem scheduler_sentinel_counterexample :
    (∃ r ∈ cex_store.resources, feasible cex_store r) ∧
    pending_tasks cex_store = [cex_task] ∧
    new_assignments distZero cex_store = [] ∧
    (greedy_scheduler distZero cex_store).2 = [] := by
  refine ⟨⟨res_a, by decide, by decide⟩, rfl, ?_, ?_⟩
  · rw [new_assignments, cex_pass]
    rfl
  · rw [cex_pass]

/-- C2 (amended): whenever some feasible resource scores strictly above the
loop's initial -999 sentinel (always the case for the source's distance
function when the task's urgency is nonnegative), the engine assigns the
task: it selects the feasible resource with the strictly greatest score,
the earliest-iterated one on ties, and commits exactly that assignment. -/
theorem assignment_selection_amended (dist : Task α → Resource α → α)
    (st : Store α) (out : List SchedOut) (t : Task α) (res : List (Resource α))
    (h : ∃ r ∈ res, feasible st r ∧ -999 < score_of dist st t r) :
    ∃ b, select_best dist st t res =
        (some b, score_of dist st t b, some (dist t b)) ∧
      b ∈ res ∧ feasible st b ∧
      (∀ r ∈ res, feasible st r → score_of dist st t r ≤ score_of dist st t b) ∧
      (∃ pre suf, res = pre ++ b :: suf ∧
        ∀ x ∈ pre, feasible st x → score_of dist st t x < score_of dist st t b) ∧
      sched_step dist res (st, out) t =
        (commit_store dist st t b, out ++ [out_entry dist st t b]) := by
  obtain ⟨b, hsel⟩ := selInit_isSome dist st t h
  obtain ⟨hmem, hfeas, _⟩ := selInit_sound dist st t hsel
  exact ⟨b, select_best_of_some dist st t hsel, hmem, hfeas,
    selInit_max dist st t hsel, selInit_first dist st t hsel,
    sched_step_of_some dist res (st, out) t b hsel⟩

/-- Witness for C2's amended theorem at a concrete rational store. -/
theorem assignment_selection_amended_witness :
    (∃ r ∈ demo_store.resources, feasible demo_store r ∧
      -999 < score_of distZero demo_store task_hi r) ∧
    (∃ b, select_best distZero demo_store task_hi demo_store.resources =
        (some b, score_of distZero demo_store task_hi b, some (distZero task_hi b)) ∧
      b ∈ demo_store.resources ∧ feasible demo_store b ∧
      (∀ r ∈ demo_store.resources, feasible demo_store r →
        score_of distZero demo_store task_hi r ≤ score_of distZero demo_store task_hi b) ∧
      (∃ pre suf, demo_store.resources = pre ++ b :: suf ∧
        ∀ x ∈ pre, feasible demo_store x →
          score_of distZero demo_store task_hi x < score_of distZero demo_store task_hi b) ∧
      sched_step distZero demo_store.resources (demo_store, []) task_hi =
        (commit_store distZero demo_store task_hi b,
          [] ++ [out_entry distZero demo_store task_hi b])) := by
  have h : ∃ r ∈ demo_store.resources, feasible demo_store r ∧
      -999 < score_of distZero demo_store task_hi r :=
    ⟨res_a, by decide, demo_cond.1, demo_cond.2⟩
  exact ⟨h, assignment_selection_amended distZero demo_store [] task_hi
    demo_store.resources h⟩

/-- C3: every assignment a source scheduling pass creates references a
pending task and a stored resource and carries
eta = floor(haversine(task, resource) / 30 * 60) + 5 minutes, the haversine
distance taken with Earth radius 6371 km. -/
theorem eta_formula_haversine (st : Store ℝ) :
    List.Forall (fun a : Assignment =>
      ∃ t, t ∈ st.tasks ∧ t.status = "pending" ∧
        ∃ r, r ∈ st.resources ∧ a.task_id = t.id ∧ a.resource_id = r.id ∧
          a.eta_minutes = ⌊haversine t.lat t.lon r.lat r.lon / 30 * 60⌋ + 5)
      (new_assignments_real st) := by
  rw [List.forall_iff_forall_mem]
  intro a ha
  have ha' : a ∈ new_assignments hav_dist st := ha
  obtain ⟨t, ht, hst, r, hr, h1, h2, h3⟩ := mem_new_assignments hav_dist ha'
  refine ⟨t, ht, hst, r, hr, h1, h2, ?_⟩
  rw [h3]
  have h0 : 0 ≤ hav_dist t r := haversine_nonneg t.lat t.lon r.lat r.lon
  have hd : (0:ℝ) ≤ hav_dist t r / 30 * 60 :=
    mul_nonneg (div_nonneg h0 (by norm_num)) (by norm_num)
  rw [py_trunc_of_nonneg hd]
  rfl

/-- C4: if, at any point inside a pass (after the tasks `pre` and before
the tasks `suf`), a resource's load has reached its capacity, the rest of
the pass leaves that resource's load unchanged: it receives no further
assignment. -/
theorem saturated_resource_stays_unassigned (dist : Task α → Resource α → α)
    (st : Store α) (r : Resource α) (pre suf : List (Task α))
    (hnd : (st.resources.map Resource.id).Nodup) (hr : r ∈ st.resources)
    (hsplit : pass_order st = pre ++ suf)
    (hsat : (current_load ((pre.foldl (sched_step dist st.resources) (st, [])).1) r.id : Int)
      ≥ r.capacity) :
    current_load (run_pass dist st) r.id =
      current_load ((pre.foldl (sched_step dist st.resources) (st, [])).1) r.id := by
  rw [run_pass, greedy_scheduler, hsplit, List.foldl_append]
  exact foldl_sched_load_saturated dist st.resources suf hnd hr _ hsat

/-- Witness for C4: after the first (more urgent) task fills the single
capacity-1 resource, the second task leaves its load unchanged. -/
theorem saturated_resource_stays_unassigned_witness :
    ((demo_store.resources.map Resource.id).Nodup ∧
      res_a ∈ demo_store.resources ∧
      pass_order demo_store = [task_hi] ++ [task_lo] ∧
      (current_load (([task_hi].foldl (sched_step distZero demo_store.resources)
        (demo_store, [])).1) res_a.id : Int) ≥ res_a.capacity) ∧
    current_load (run_pass distZero demo_store) res_a.id =
      current_load (([task_hi].foldl (sched_step distZero demo_store.resources)
        (demo_store, [])).1) res_a.id :=
  ⟨⟨by decide, by decide, rfl, demo_saturated⟩,
    saturated_resource_stays_unassigned distZero demo_store res_a
      [task_hi] [task_lo] (by decide) (by decide) rfl demo_saturated⟩

/-- C5: a pass processes the pending tasks in descending urgency, the order
is a permutation of the pending tasks, and it is stable: for every
urgency value, the tasks of that urgency appear in exactly their store
order. -/
theorem pass_order_sorted_stable (st : Store α) :
    List.Pairwise (fun a b : Task α => b.urgency ≤ a.urgency) (pass_order st) ∧
    (pass_order st).Perm (pending_tasks st) ∧
    ∀ u : Int, (pass_order st).filter (fun t => t.urgency == u) =
      (pending_tasks st).filter (fun t => t.urgency == u) :=
  ⟨sortTasks_sorted (pending_tasks st), sortTasks_perm (pending_tasks st),
    fun u => sortTasks_filter (pending_tasks st) u⟩

/-- C6: a selected resource is feasible, hence has strictly positive
capacity: a capacity-0 resource is never selected, and the load/capacity
division of the score formula is only ever evaluated with a nonzero
divisor. -/
theorem capacity_zero_never_selected (dist : Task α → Resource α → α)
    (st : Store α) (t : Task α) (res : List (Resource α)) (r : Resource α)
    (h : (select_best dist st t res).1 = some r) :
    0 < r.capacity ∧ (r.capacity : α) ≠ 0 ∧ feasible st r ∧ r ∈ res := by
  rw [select_best_eq] at h
  cases hsel : selInit dist st t res with
  | none => rw [hsel] at h; simp at h
  | some b =>
    rw [hsel] at h
    simp only [Option.elim] at h
    have hb : b = r := Option.some_inj.mp h
    subst hb
    obtain ⟨hmem, hfeas, _⟩ := selInit_sound dist st t hsel
    have hcap : 0 < b.capacity := lt_of_le_of_lt (Int.natCast_nonneg _) hfeas
    exact ⟨hcap, Int.cast_ne_zero.mpr (ne_of_gt hcap), hfeas, hmem⟩

/-- Witness for C6 at a concrete rational store. -/
theorem capacity_zero_never_selected_witness :
    (select_best distZero demo_store task_hi demo_store.resources).1 = some res_a ∧
    (0 < res_a.capacity ∧ ((res_a.capacity : ℚ)) ≠ 0 ∧
      feasible demo_store res_a ∧ res_a ∈ demo_store.resources) := by
  have h : (select_best distZero demo_store task_hi demo_store.resources).1 =
      some res_a := by
    rw [select_best_of_some distZero demo_store task_hi demo_selInit]
  exact ⟨h, capacity_zero_never_selected distZero demo_store task_hi
    demo_store.resources res_a h⟩

/-- C7: the source add-task handler performs no validation: a request body
without a title makes it raise an unhandled KeyError (an HTTP 500) instead
of the 4xx-equivalent rejection the specification requires. -/
theorem add_task_missing_title_keyerror :
    add_task distZero body_no_title empty_store =
      Except.error PyError.keyError := rfl

/-- C8: the active load reads only the assignment table (task statuses are
irrelevant), and it never decreases over any sequence of scheduling or
add-task operations. -/
theorem active_load_monotone (dist : Task α → Resource α → α) (st : Store α)
    (tasks2 : List (Task α)) (rid : Nat) (ops : List (Op α)) :
    current_load { st with tasks := tasks2 } rid = current_load st rid ∧
    current_load st rid ≤ current_load (apply_ops dist ops st) rid :=
  ⟨rfl, apply_ops_load_mono dist ops st rid⟩

/-- C9: for a fixed task and two resources of equal load and equal
capacity, the one at strictly smaller haversine distance gets the strictly
higher score. -/
theorem closer_resource_higher_score (st : Store ℝ) (t : Task ℝ)
    (r1 r2 : Resource ℝ)
    (hload : current_load st r1.id = current_load st r2.id)
    (hcap : r1.capacity = r2.capacity)
    (hdist : haversine t.lat t.lon r1.lat r1.lon <
      haversine t.lat t.lon r2.lat r2.lon) :
    score_of hav_dist st t r2 < score_of hav_dist st t r1 := by
  simp only [score_of, hav_dist]
  rw [← hload, ← hcap]
  have h3 := hdist
  linarith

/-- Witness for C9: a resource co-located with the task against one a
quarter of the globe away. -/
theorem closer_resource_higher_score_witness :
    (current_load w9_store w9_r1.id = current_load w9_store w9_r2.id ∧
      w9_r1.capacity = w9_r2.capacity ∧
      haversine w9_t.lat w9_t.lon w9_r1.lat w9_r1.lon <
        haversine w9_t.lat w9_t.lon w9_r2.lat w9_r2.lon) ∧
    score_of hav_dist w9_store w9_t w9_r2 < score_of hav_dist w9_store w9_t w9_r1 := by
  have hd : haversine w9_t.lat w9_t.lon w9_r1.lat w9_r1.lon <
      haversine w9_t.lat w9_t.lon w9_r2.lat w9_r2.lon := by
    show haversine 0 0 0 0 < haversine 0 0 0 90
    rw [haversine_same]
    exact haversine_quarter_pos
  exact ⟨⟨rfl, rfl, hd⟩,
    closer_resource_higher_score w9_store w9_t w9_r1 w9_r2 rfl rfl hd⟩

/-- C10: a request body lacking title, lat, lon or urgency makes the
add-task operation fail with an unhandled exception raised while the Task
row is being constructed, before anything is added to or committed in the
store: the store is unchanged. -/
theorem add_task_missing_field_rejected (dist : Task α → Resource α → α)
    (body : ReqBody α) (st : Store α)
    (h : body.title = none ∨ body.lat = none ∨ body.lon = none ∨
      body.urgency = none) :
    (∃ e, add_task dist body st = Except.error e) ∧
    apply_op dist (Op.addTask body) st = st := by
  obtain ⟨e, he⟩ := add_task_missing_err dist body st h
  refine ⟨⟨e, he⟩, ?_⟩
  rw [apply_op, he]

/-- Witness for C10: a body without lat. -/
theorem add_task_missing_field_rejected_witness :
    (body_no_lat.title = none ∨ body_no_lat.lat = none ∨
      body_no_lat.lon = none ∨ body_no_lat.urgency = none) ∧
    ((∃ e, add_task distZero body_no_lat empty_store = Except.error e) ∧
      apply_op distZero (Op.addTask body_no_lat) empty_store = empty_store) :=
  ⟨Or.inr (Or.inl rfl),
    add_task_missing_field_rejected distZero body_no_lat empty_store
      (Or.inr (Or.inl rfl))⟩

end UrbanTaskManager
